import Mathlib

/-!
Verification of the festin discovery engine (`src/festin/__main__.py`)
against its natural-language specification.

The development shallowly embeds the two layers of the program:

* the pure string/branch logic of `get_s3` (lines 93-137): Python string
  operations (`endswith`, `in`, `find`, slicing with possibly negative
  bounds, f-strings, `str(status).startswith("2")`) are modelled
  character-exactly; network retrieval, the directory-listing parser
  `parse_result`, the redirect parser `get_redirection` and the locator
  template `BASE_URL.format` live outside `src/` and are taken as
  parameters of the embedding;

* the cooperative scheduling of `analyze_domains` / `analyze`
  (lines 139-201): a small-step transition system over an explicit system
  state (FIFO queue, semaphore counter, scheduler control point, task
  list).  A step is chosen by an explicit schedule, matching asyncio's
  single-threaded event loop: the scheduler coroutine runs one atomic
  slice (its `while` body never suspends while a permit is available and
  the queue is non-empty), a probe task runs when the scheduler is
  suspended, and a probe's frontier pushes, `sem.release()` and
  `queue.task_done()` all happen in its final resumption slice.
-/

namespace Festin

/-! ## Python string primitives -/

/-- Is the first list a (character) prefix of the second? -/
def isPrefixL : List Char → List Char → Bool
  | [], _ => true
  | _ :: _, [] => false
  | a :: as, b :: bs => a == b && isPrefixL as bs

/-- Index of the first occurrence of `pat` in the list, if any:
Python's `str.find` restricted to the found case (`str.find` returns -1,
and `pat in s` is false, exactly when this returns `none`). -/
def findSub (pat : List Char) : List Char → Option Nat
  | [] => if isPrefixL pat [] then some 0 else none
  | c :: rest =>
    if isPrefixL pat (c :: rest) then some 0
    else (findSub pat rest).map (fun n => n + 1)

/-- Python `s.endswith(t)`. -/
def pyEndsWith (s t : String) : Bool :=
  isPrefixL t.toList.reverse s.toList.reverse

/-- Python `s.find(t)` / `t in s`, as an `Option`. -/
def pyFind (s t : String) : Option Nat := findSub t.toList s.toList

/-- Python slice `s[i:]` for a non-negative index. -/
def pySliceFrom (s : String) (i : Nat) : String := (s.toList.drop i).asString

/-- Python slice `s[:i]` for a possibly negative `i`
(`s[:-1]` drops the final character). -/
def pySliceTo (s : String) (i : Int) : String :=
  if i < 0 then (s.toList.take (s.toList.length - i.natAbs)).asString
  else (s.toList.take i.toNat).asString

/-- Python `str(n).startswith("2")`, the 2xx test of line 114. -/
def startsWith2 (n : Nat) : Bool := isPrefixL ['2'] (Nat.repr n).toList

/-! ## The bucket probe `get_s3` (lines 93-137) -/

/-- An HTTP response as observed by `get_s3`: the integer status and the
body text (`response.text()` / `response.read()`). -/
structure HttpResp where
  status : Nat
  body : String
deriving DecidableEq

/-- The `S3Bucket` record appended to `results` (lines 118-122). -/
structure S3Bucket where
  domain : String
  bucket_name : String
  objects : List String
deriving DecidableEq

/-- Lines 102-110 of `get_s3`: the locator construction, including the
rebinding of the local `domain` variable in the `elif "s3" in domain`
branch.  Returns the pair (final value of `domain`, `bucket_name`).
`baseURL` is `BASE_URL.format` of the festin package (outside `src/`),
taken as a parameter. -/
def s3Target (baseURL : String → String) (domain : String) : String × String :=
  if pyEndsWith domain "s3.amazonaws.com" then
    (domain, domain)
  else
    match pyFind domain "s3" with
    | some i =>
      (pySliceTo domain ((i : Int) - 1),
       "http://" ++ pySliceFrom domain i ++ "/" ++ pySliceTo domain ((i : Int) - 1))
    | none => (domain, baseURL domain)

/-- Lines 98-136 of `get_s3`.  `fetch` is the HTTP client
(`session.get` + body retrieval); `fetch u = none` models a network
exception, caught by the `except` of line 135.  `parse` models
`parse_result` and `getRedir` models `get_redirection` (both from the
festin package, outside `src/`); `none` models the parser raising, also
caught at line 135.  Returns the final (queue, results) pair. -/
def get_s3 (baseURL : String → String) (parse : String → Option (List String))
    (getRedir : String → Option String) (fetch : String → Option HttpResp)
    (domain : String) (queue : List String) (results : List S3Bucket) :
    List String × List S3Bucket :=
  let dom := (s3Target baseURL domain).1
  let bucket_name := (s3Target baseURL domain).2
  match fetch bucket_name with
  | none => (queue, results)
  | some resp =>
    if startsWith2 resp.status then
      match parse resp.body with
      | none => (queue, results)
      | some objects =>
        if objects.isEmpty then (queue, results)
        else (queue, results ++ [⟨dom, bucket_name, objects⟩])
    else if resp.status = 301 then
      match getRedir resp.body with
      | none => (queue, results)
      | some r => (queue ++ [r], results)
    else (queue, results)

/-! ## The probe body `analyze` (lines 139-169)

`analyze` runs `get_s3`, then (guarded by the flags) `get_links` and
`get_dns_info`, inside `try/except/finally`; the `finally` performs
`sem.release()` and `queue.task_done()`.  We embed the control flow as a
trace of primitive effects, with each sub-call abstracted to an outcome:
it either returns after pushing a list of domains or raises. -/

/-- The configuration flags consumed by `analyze` (lines 155, 162):
`get_links` runs iff `no_links` is false, `get_dns_info` runs iff
`no_dns` is false. -/
structure AnalyzeCfg where
  no_links : Bool
  no_dns : Bool

/-- Outcome of one sub-call of `analyze`. -/
inductive SubOutcome where
  | ok (pushes : List String)
  | raised

/-- A primitive effect performed by `analyze`. -/
inductive PAct where
  | push (d : String)
  | report
  | semRelease
  | qTaskDone
deriving DecidableEq

/-- Effects of a single sub-call, plus whether it raised. -/
def subActions : SubOutcome → List PAct × Bool
  | .ok ps => (ps.map PAct.push, false)
  | .raised => ([], true)

/-- Sequential composition inside the `try` block: a raise aborts the
remaining sub-calls (lines 146-163). -/
def seqTry : List SubOutcome → List PAct × Bool
  | [] => ([], false)
  | o :: os =>
    match subActions o with
    | (as, true) => (as, true)
    | (as, false) =>
      match seqTry os with
      | (bs, r) => (as ++ bs, r)

/-- The `except Exception` handler of line 165: catches and prints. -/
def exceptAll (body : List PAct × Bool) : List PAct × Bool :=
  if body.2 then (body.1 ++ [PAct.report], false) else body

/-- The `finally` block of line 167: its effects run on every exit path. -/
def finallyDo (body : List PAct × Bool) (fin : List PAct) : List PAct × Bool :=
  (body.1 ++ fin, body.2)

/-- The effect trace of one `analyze` invocation (lines 139-169). -/
def analyzeActs (cfg : AnalyzeCfg) (s3 links dns : SubOutcome) : List PAct :=
  (finallyDo
    (exceptAll (seqTry
      [s3,
       if cfg.no_links then SubOutcome.ok [] else links,
       if cfg.no_dns then SubOutcome.ok [] else dns]))
    [PAct.semRelease, PAct.qTaskDone]).1

/-- Number of `sem.release()` effects in a trace. -/
def countRel : List PAct → Nat
  | [] => 0
  | .semRelease :: as => countRel as + 1
  | _ :: as => countRel as

/-- Number of `queue.task_done()` effects in a trace. -/
def countTD : List PAct → Nat
  | [] => 0
  | .qTaskDone :: as => countTD as + 1
  | _ :: as => countTD as

/-- The list of domains one `analyze` invocation pushes onto the queue,
on its non-raising path: the queue delta of `get_s3`, then the pushes of
`get_links` (if enabled), then those of `get_dns_info` (if enabled).
`linksP` and `dnsP` abstract the pushes of the two skippable sub-probes. -/
def analyzePushes (cfg : AnalyzeCfg) (baseURL : String → String)
    (parse : String → Option (List String)) (getRedir : String → Option String)
    (fetch : String → Option HttpResp) (linksP dnsP : String → List String)
    (domain : String) : List String :=
  (get_s3 baseURL parse getRedir fetch domain [] []).1
    ++ (if cfg.no_links then [] else linksP domain)
    ++ (if cfg.no_dns then [] else dnsP domain)

/-! ## Network call sites and their timeout configuration -/

/-- The keyword configuration of an HTTP `session.get` call site. -/
structure HttpGetCall where
  url : String
  timeout : Option Nat
deriving DecidableEq

/-- Line 112: `session.get(bucket_name)` — no timeout argument. -/
def s3_get_call (bucket_name : String) : HttpGetCall := ⟨bucket_name, none⟩

/-- Line 44: `session.get(f"{scheme}://{domain}", verify_ssl=False)` —
no timeout argument. -/
def links_get_call (scheme domain : String) : HttpGetCall :=
  ⟨scheme ++ "://" ++ domain, none⟩

/-- Line 82: `resolver.query(domain, types.CNAME)` — no timeout argument
is passed at the call site. -/
def dns_query_timeout : Option Nat := none

/-! ## The scheduler `analyze_domains` (lines 172-201): system model

State of one probe task.  `created` = `asyncio.create_task` ran but the
body has not started; `running` = the body started (it is at a network
suspension point); `done` = the body finished, i.e. its frontier pushes,
`sem.release()` and `queue.task_done()` have all happened. -/
inductive Phase where
  | created
  | running
  | done
deriving DecidableEq

/-- One entry of the `tasks` list of `analyze_domains`. -/
structure Task where
  domain : String
  phase : Phase
deriving DecidableEq

/-- Control point of the `analyze_domains` coroutine.
`loopTop`: at the `while not queue_domains.empty()` check; one loop
iteration (pop, `create_task`, successful `sem.acquire()`) is atomic,
since none of those operations suspends when a permit is available.
`semWait`: suspended inside `await sem.acquire()` with the task of the
popped domain already created.
`gathering`: suspended in `await asyncio.gather(*tasks)`.
`returned`: `analyze_domains` has returned. -/
inductive Sched where
  | loopTop
  | semWait
  | gathering
  | returned
deriving DecidableEq

/-- The shared state of one `analyze_domains` run.  `started` counts
`analyze` bodies that began executing; `taskDone` counts
`queue.task_done()` calls. -/
structure Sys where
  queue : List String
  sem : Nat
  sched : Sched
  tasks : List Task
  started : Nat
  taskDone : Nat
deriving DecidableEq

/-- State after lines 174-182: the seeds are enqueued, the semaphore
holds `concurrency` permits, no task exists. -/
def initSys (concurrency : Nat) (seeds : List String) : Sys :=
  ⟨seeds, concurrency, .loopTop, [], 0, 0⟩

/-- Index lookup in the task list. -/
def getTask : List Task → Nat → Option Task
  | [], _ => none
  | t :: _, 0 => some t
  | _ :: ts, n + 1 => getTask ts n

/-- Phase update of the task at an index. -/
def setPhase : List Task → Nat → Phase → List Task
  | [], _, _ => []
  | t :: ts, 0, p => ⟨t.domain, p⟩ :: ts
  | t :: ts, n + 1, p => t :: setPhase ts n p

/-- Are all launched tasks finished? (`asyncio.gather` resumes then.) -/
def allDone : List Task → Bool
  | [] => true
  | t :: ts => (match t.phase with | .done => true | _ => false) && allDone ts

/-- One resumption slice of the `analyze_domains` coroutine.
At `loopTop` with a non-empty queue, lines 185-197 run without
suspending: pop, `create_task`, then `sem.acquire()` — which either
succeeds (a permit is free) or suspends the scheduler (`semWait`).
At `loopTop` with an empty queue the loop exits to the `gather`.
At `semWait` the scheduler resumes once a permit is free.
At `gathering` it returns once every launched task is done. -/
def schedStep (s : Sys) : Sys :=
  match s.sched with
  | .loopTop =>
    match s.queue with
    | [] => { s with sched := .gathering }
    | d :: rest =>
      if s.sem = 0 then
        { s with queue := rest, tasks := s.tasks ++ [⟨d, .created⟩],
                 sched := .semWait }
      else
        { s with queue := rest, tasks := s.tasks ++ [⟨d, .created⟩],
                 sem := s.sem - 1 }
  | .semWait =>
    if s.sem = 0 then s
    else { s with sem := s.sem - 1, sched := .loopTop }
  | .gathering =>
    if allDone s.tasks then { s with sched := .returned } else s
  | .returned => s

/-- One resumption slice of probe task `i`.  A `created` task starts
running (the `analyze` body up to its first network await).  A `running`
task runs to completion: it pushes the domains it discovered
(`env t.domain`), releases its permit and signals `task_done` — the
effects of the final resumption of the `analyze` body.  A `done` task
has nothing to run. -/
def taskStep (env : String → List String) (s : Sys) (i : Nat) : Sys :=
  match getTask s.tasks i with
  | none => s
  | some t =>
    match t.phase with
    | .created =>
      { s with tasks := setPhase s.tasks i .running, started := s.started + 1 }
    | .running =>
      { s with tasks := setPhase s.tasks i .done,
               queue := s.queue ++ env t.domain,
               sem := s.sem + 1,
               taskDone := s.taskDone + 1 }
    | .done => s

/-- A scheduling choice of the event loop: run the scheduler coroutine
or probe task `i`. -/
inductive Choice where
  | sched
  | task (i : Nat)
deriving DecidableEq

/-- One event-loop step. -/
def step (env : String → List String) (s : Sys) : Choice → Sys
  | .sched => schedStep s
  | .task i => taskStep env s i

/-- Run a finite schedule. -/
def runList (env : String → List String) (s : Sys) : List Choice → Sys
  | [] => s
  | c :: cs => runList env (step env s c) cs

/-- All states visited while running a schedule (including first and last). -/
def statesAlong (env : String → List String) (s : Sys) : List Choice → List Sys
  | [] => [s]
  | c :: cs => s :: statesAlong env (step env s c) cs

/-- Has `analyze_domains` returned in this state? -/
def isReturned (s : Sys) : Bool :=
  match s.sched with
  | .returned => true
  | _ => false

/-- Number of probe bodies currently executing (started, not finished). -/
def countRunning : List Task → Nat
  | [] => 0
  | t :: ts => (match t.phase with | .running => 1 | _ => 0) + countRunning ts

/-- Number of launched tasks that are not yet finished. -/
def countNotDone : List Task → Nat
  | [] => 0
  | t :: ts => (match t.phase with | .done => 0 | _ => 1) + countNotDone ts

/-- Number of tasks whose body has started (running or done). -/
def countStarted : List Task → Nat
  | [] => 0
  | t :: ts => (match t.phase with | .created => 0 | _ => 1) + countStarted ts

/-- Is the scheduler suspended in `await sem.acquire()`?  While it is,
one popped domain's task exists whose permit is not yet accounted. -/
def semWaitBit (s : Sys) : Nat :=
  match s.sched with
  | .semWait => 1
  | _ => 0

/-- Permit accounting invariant of a run: available permits plus
unfinished tasks never exceed the configured count, plus one for the
task created just before the scheduler blocked in `sem.acquire()`. -/
def permitInv (C : Nat) (s : Sys) : Prop :=
  s.sem + countNotDone s.tasks ≤ C + semWaitBit s

/-- Conservation invariant of a run in which no probe pushes anything:
the seeds are exactly the probed domains plus the pending queue, the
queue is empty once the scheduler leaves its loop, and all tasks are
done once it returns. -/
def seedInv (seeds : List String) (s : Sys) : Prop :=
  s.tasks.map Task.domain ++ s.queue = seeds ∧
  ((s.sched = .gathering ∨ s.sched = .returned) → s.queue = []) ∧
  (s.sched = .returned → allDone s.tasks = true) ∧
  s.started = countStarted s.tasks

/-! ## Concrete runs used by the temporal claims -/

/-- A finished task probing domain `a`. -/
def dTask : Task := ⟨"a", .done⟩

/-- A created task probing domain `a`. -/
def cTask : Task := ⟨"a", .created⟩

/-- A started task probing domain `a`. -/
def rTask : Task := ⟨"a", .running⟩

/-- Discovery graph with a cycle: every probe of any domain discovers
`"a"` again (domain a's page links back to a). -/
def envLoop : String → List String := fun _ => ["a"]

/-- The recurring state of the non-terminating run: the scheduler is
blocked in `sem.acquire()`, `k` probes have finished, the task for the
popped domain and one earlier task are pending. -/
def bState (k : Nat) : Sys :=
  ⟨[], 0, .semWait, List.replicate k dTask ++ [cTask, cTask], k, k⟩

/-- One period of the non-terminating schedule: start and finish the
oldest pending task, let the scheduler acquire the released permit, then
pop the re-discovered domain and block again. -/
def periodC (k : Nat) : List Choice :=
  [.task k, .task k, .sched, .sched]

/-! ## Helper lemmas -/

set_option maxRecDepth 10000 in
theorem startsWith2_of_2xx :
    ∀ s : Nat, s < 300 → 200 ≤ s → startsWith2 s = true := by decide

set_option maxRecDepth 10000 in
theorem startsWith2_false_of_non2xx :
    ∀ s : Nat, s < 600 → 100 ≤ s → ¬(200 ≤ s ∧ s ≤ 299) →
      startsWith2 s = false := by decide

theorem countRel_append (a b : List PAct) :
    countRel (a ++ b) = countRel a + countRel b := by
  induction a with
  | nil => simp [countRel]
  | cons x xs ih => cases x <;> simp [countRel, ih] <;> omega

theorem countTD_append (a b : List PAct) :
    countTD (a ++ b) = countTD a + countTD b := by
  induction a with
  | nil => simp [countTD]
  | cons x xs ih => cases x <;> simp [countTD, ih] <;> omega

theorem countRel_map_push (l : List String) :
    countRel (l.map PAct.push) = 0 := by
  induction l with
  | nil => rfl
  | cons x xs ih => simp [countRel, ih]

theorem countTD_map_push (l : List String) :
    countTD (l.map PAct.push) = 0 := by
  induction l with
  | nil => rfl
  | cons x xs ih => simp [countTD, ih]

theorem countRel_seqTry (os : List SubOutcome) :
    countRel (seqTry os).1 = 0 := by
  induction os with
  | nil => rfl
  | cons o os ih =>
    cases o with
    | ok ps => simp [seqTry, subActions, countRel_append, countRel_map_push, ih]
    | raised => simp [seqTry, subActions, countRel]

theorem countTD_seqTry (os : List SubOutcome) :
    countTD (seqTry os).1 = 0 := by
  induction os with
  | nil => rfl
  | cons o os ih =>
    cases o with
    | ok ps => simp [seqTry, subActions, countTD_append, countTD_map_push, ih]
    | raised => simp [seqTry, subActions, countTD]

theorem countRel_exceptAll (b : List PAct × Bool) :
    countRel (exceptAll b).1 = countRel b.1 := by
  unfold exceptAll
  split <;> simp [countRel_append, countRel]

theorem countTD_exceptAll (b : List PAct × Bool) :
    countTD (exceptAll b).1 = countTD b.1 := by
  unfold exceptAll
  split <;> simp [countTD_append, countTD]

/-! ## Claim theorems: probe body and call sites -/

/-- Claim C4: every `analyze` invocation, on every exit path — all
sub-probes succeeded, some raised, link/dns checks enabled or disabled —
performs exactly one `sem.release()` and exactly one
`queue.task_done()`, because both sit in the `finally` block and the
`except` handler stops any exception from skipping it. -/
theorem analyze_releases_once_taskdone_once
    (cfg : AnalyzeCfg) (s3 links dns : SubOutcome) :
    countRel (analyzeActs cfg s3 links dns) = 1 ∧
    countTD (analyzeActs cfg s3 links dns) = 1 := by
  unfold analyzeActs finallyDo
  constructor
  · simp [countRel_append, countRel_exceptAll, countRel_seqTry, countRel]
  · simp [countTD_append, countTD_exceptAll, countTD_seqTry, countTD]

/-- Claim C5: `get_s3` builds the candidate bucket locator by exactly one
of three mutually exclusive rules selected by pattern match on the
domain (lines 102-110): (i) a domain already ending in the
`s3.amazonaws.com` bucket-host suffix is used as-is; (ii) otherwise, a
domain containing the marker `"s3"` is split at the marker's first
occurrence into a provider part `domain[i:]` and a path part
`domain[:i-1]`, combined into `http://{provider}/{path}`;
(iii) otherwise the default provider's `BASE_URL` template is
instantiated with the domain. -/
theorem get_s3_locator_trichotomy (baseURL : String → String) (domain : String) :
    (pyEndsWith domain "s3.amazonaws.com" = true →
      (s3Target baseURL domain).2 = domain) ∧
    (pyEndsWith domain "s3.amazonaws.com" = false →
      ∀ i, pyFind domain "s3" = some i →
        (s3Target baseURL domain).2 =
          "http://" ++ pySliceFrom domain i ++ "/" ++
            pySliceTo domain ((i : Int) - 1)) ∧
    (pyEndsWith domain "s3.amazonaws.com" = false →
      pyFind domain "s3" = none →
        (s3Target baseURL domain).2 = baseURL domain) := by
  refine ⟨fun h => ?_, fun h i hi => ?_, fun h hn => ?_⟩
  · simp [s3Target, h]
  · simp [s3Target, h, hi]
  · simp [s3Target, h, hn]

/-- Witness for C5 at one concrete domain per rule. -/
theorem get_s3_locator_trichotomy_witness :
    (s3Target (fun d => "T" ++ d) "x.s3.amazonaws.com").2 = "x.s3.amazonaws.com" ∧
    (s3Target (fun d => "T" ++ d) "a.s3.b").2 =
      "http://" ++ pySliceFrom "a.s3.b" 2 ++ "/" ++
        pySliceTo "a.s3.b" ((2 : Int) - 1) ∧
    (s3Target (fun d => "T" ++ d) "plain.com").2 = (fun d => "T" ++ d) "plain.com" :=
  ⟨(get_s3_locator_trichotomy (fun d => "T" ++ d) "x.s3.amazonaws.com").1 (by decide),
   (get_s3_locator_trichotomy (fun d => "T" ++ d) "a.s3.b").2.1 (by decide) 2 (by decide),
   (get_s3_locator_trichotomy (fun d => "T" ++ d) "plain.com").2.2 (by decide) (by decide)⟩

/-- Claim C9 evidence: no network call site of the probes passes a
per-request timeout — neither `session.get(bucket_name)` in `get_s3`,
nor `session.get(f"{scheme}://{domain}", ...)` in `get_links`, nor
`resolver.query(domain, types.CNAME)` in `get_dns_info`.  A hung call
therefore suspends its probe indefinitely, contradicting the required
per-request-timeout hardening. -/
theorem no_per_request_timeout_configured (b s d : String) :
    (s3_get_call b).timeout = none ∧
    (links_get_call s d).timeout = none ∧
    dns_query_timeout = none :=
  ⟨rfl, rfl, rfl⟩

theorem isPrefixL_length (p l : List Char) (h : isPrefixL p l = true) :
    p.length ≤ l.length := by
  induction p generalizing l with
  | nil => simp
  | cons a as ih =>
    cases l with
    | nil => simp [isPrefixL] at h
    | cons b bs =>
      simp only [isPrefixL, Bool.and_eq_true] at h
      have := ih bs h.2
      simp only [List.length_cons]
      omega

theorem findSub_bound (pat : List Char) (l : List Char) (i : Nat)
    (h : findSub pat l = some i) : i + pat.length ≤ l.length := by
  induction l generalizing i with
  | nil =>
    unfold findSub at h
    split at h
    · cases h
      simpa using isPrefixL_length pat [] (by assumption)
    · cases h
  | cons c rest ih =>
    unfold findSub at h
    split at h
    · cases h
      simpa using isPrefixL_length pat (c :: rest) (by assumption)
    · cases hf : findSub pat rest with
      | none => rw [hf] at h; cases h
      | some j =>
        rw [hf] at h
        simp only [Option.map_some', Option.some.injEq] at h
        have := ih j hf
        simp only [List.length_cons]
        omega

/-- Claim C6: on a 2xx response whose body parses, `get_s3` appends a
Bucket Result if and only if the parsed listing is non-empty, and the
appended result's object list is exactly the parsed list in order
(lines 114-122: `if objects := parse_result(content)` skips empty or
`None` listings; the list comprehension copies the list). -/
theorem get_s3_2xx_result_iff_nonempty
    (baseURL : String → String) (parse : String → Option (List String))
    (getRedir : String → Option String) (fetch : String → Option HttpResp)
    (domain : String) (queue : List String) (results : List S3Bucket)
    (resp : HttpResp) (objs : List String)
    (hf : fetch (s3Target baseURL domain).2 = some resp)
    (h1 : 200 ≤ resp.status) (h2 : resp.status ≤ 299)
    (hp : parse resp.body = some objs) :
    ((get_s3 baseURL parse getRedir fetch domain queue results).2 =
        results ++
          [⟨(s3Target baseURL domain).1, (s3Target baseURL domain).2, objs⟩] ↔
      objs ≠ []) ∧
    (objs = [] →
      (get_s3 baseURL parse getRedir fetch domain queue results).2 = results) := by
  have hs : startsWith2 resp.status = true :=
    startsWith2_of_2xx resp.status (by omega) h1
  unfold get_s3
  simp only [hf, hs, if_true, hp]
  cases objs with
  | nil =>
    simp
  | cons o os =>
    simp [List.isEmpty]

/-- Witness for C6: the spec's synthetic example — a 2xx listing of
`["a.txt","b.txt"]` yields exactly one Bucket Result carrying both paths
in order, and an empty listing yields none. -/
theorem get_s3_2xx_result_iff_nonempty_witness :
    (get_s3 (fun d => d) (fun _ => some ["a.txt", "b.txt"]) (fun _ => none)
        (fun _ => some ⟨200, "x"⟩) "plain.com" [] []).2 =
      [] ++ [⟨(s3Target (fun d => d) "plain.com").1,
             (s3Target (fun d => d) "plain.com").2, ["a.txt", "b.txt"]⟩] ∧
    (get_s3 (fun d => d) (fun _ => some []) (fun _ => none)
        (fun _ => some ⟨200, "x"⟩) "plain.com" [] []).2 = [] :=
  ⟨(get_s3_2xx_result_iff_nonempty (fun d => d) (fun _ => some ["a.txt", "b.txt"])
      (fun _ => none) (fun _ => some ⟨200, "x"⟩) "plain.com" [] []
      ⟨200, "x"⟩ ["a.txt", "b.txt"] rfl (by decide) (by decide) rfl).1.mpr
      (by decide),
   (get_s3_2xx_result_iff_nonempty (fun d => d) (fun _ => some [])
      (fun _ => none) (fun _ => some ⟨200, "x"⟩) "plain.com" [] []
      ⟨200, "x"⟩ [] rfl (by decide) (by decide) rfl).2 rfl⟩

/-- Claim C7: a 301 response pushes the extracted redirect target onto
the queue and creates no Bucket Result (lines 124-133); every other
non-2xx status, a network failure (exception in `session.get` or body
retrieval), a parse failure of a 2xx body, and a parse failure of a 301
body all leave both the queue and the results untouched (no `else`
branch; exceptions caught at line 135). -/
theorem get_s3_redirect_and_failures
    (baseURL : String → String) (parse : String → Option (List String))
    (getRedir : String → Option String) (fetch : String → Option HttpResp)
    (domain : String) (queue : List String) (results : List S3Bucket) :
    (∀ resp r, fetch (s3Target baseURL domain).2 = some resp →
      resp.status = 301 → getRedir resp.body = some r →
      get_s3 baseURL parse getRedir fetch domain queue results =
        (queue ++ [r], results)) ∧
    (fetch (s3Target baseURL domain).2 = none →
      get_s3 baseURL parse getRedir fetch domain queue results =
        (queue, results)) ∧
    (∀ resp, fetch (s3Target baseURL domain).2 = some resp →
      100 ≤ resp.status → resp.status ≤ 599 →
      ¬(200 ≤ resp.status ∧ resp.status ≤ 299) → resp.status ≠ 301 →
      get_s3 baseURL parse getRedir fetch domain queue results =
        (queue, results)) ∧
    (∀ resp, fetch (s3Target baseURL domain).2 = some resp →
      200 ≤ resp.status → resp.status ≤ 299 → parse resp.body = none →
      get_s3 baseURL parse getRedir fetch domain queue results =
        (queue, results)) ∧
    (∀ resp, fetch (s3Target baseURL domain).2 = some resp →
      resp.status = 301 → getRedir resp.body = none →
      get_s3 baseURL parse getRedir fetch domain queue results =
        (queue, results)) := by
  refine ⟨fun resp r hf h301 hr => ?_, fun hf => ?_,
          fun resp hf hlo hhi hn2 hn301 => ?_,
          fun resp hf hlo hhi hpn => ?_, fun resp hf h301 hrn => ?_⟩
  · have hs : startsWith2 301 = false := by decide
    unfold get_s3
    simp [hf, hs, h301, hr]
  · unfold get_s3
    simp only [hf]
  · have hs : startsWith2 resp.status = false :=
      startsWith2_false_of_non2xx resp.status (by omega) hlo hn2
    unfold get_s3
    simp [hf, hs, hn301]
  · have hs : startsWith2 resp.status = true :=
      startsWith2_of_2xx resp.status (by omega) hlo
    unfold get_s3
    simp [hf, hs, hpn]
  · have hs : startsWith2 301 = false := by decide
    unfold get_s3
    simp [hf, hs, h301, hrn]

/-- Witness for C7: a 301 whose body names `other.example.com` grows the
queue by exactly that domain with no result, and a 404 changes nothing. -/
theorem get_s3_redirect_and_failures_witness :
    get_s3 (fun d => d) (fun _ => some ["o"]) (fun _ => some "other.example.com")
        (fun _ => some ⟨301, "x"⟩) "plain.com" ["q"] [] =
      (["q"] ++ ["other.example.com"], []) ∧
    get_s3 (fun d => d) (fun _ => some ["o"]) (fun _ => some "other.example.com")
        (fun _ => some ⟨404, "x"⟩) "plain.com" ["q"] [] = (["q"], []) :=
  ⟨(get_s3_redirect_and_failures (fun d => d) (fun _ => some ["o"])
      (fun _ => some "other.example.com") (fun _ => some ⟨301, "x"⟩)
      "plain.com" ["q"] []).1 ⟨301, "x"⟩ "other.example.com" rfl rfl rfl,
   (get_s3_redirect_and_failures (fun d => d) (fun _ => some ["o"])
      (fun _ => some "other.example.com") (fun _ => some ⟨404, "x"⟩)
      "plain.com" ["q"] []).2.2.1 ⟨404, "x"⟩ rfl (by decide) (by decide)
      (by decide) (by decide)⟩

/-- Counterexample to claim C10 as stated: for the domain `"s3a"` —
which does not end in `s3.amazonaws.com` and whose first `"s3"`
occurrence is at index 0 — a 2xx probe with a one-object listing emits a
Bucket Result whose domain field is `"s3"`: Python's `domain[:0-1]` is
`domain[:-1]`, the input minus its last character, not the empty prefix
that ends one character before the occurrence at index 0. -/
theorem bucket_domain_marker_at_zero :
    pyEndsWith "s3a" "s3.amazonaws.com" = false ∧
    pyFind "s3a" "s3" = some 0 ∧
    (get_s3 (fun d => d) (fun _ => some ["o"]) (fun _ => none)
        (fun _ => some ⟨200, ""⟩) "s3a" [] []).2 =
      [⟨"s3", "http://s3a/s3", ["o"]⟩] ∧
    ("s3" : String) ≠ "" := by
  refine ⟨by decide, by decide, by decide, by decide⟩

/-- Claim C10 as amended: under locator rule (ii) (no bucket-host
suffix, marker `"s3"` present with first occurrence at index `i`), any
emitted Bucket Result records `domain[:i-1]` in Python slice semantics:
for `i ≥ 1` that is the prefix of the input ending one character before
the marker — never the original input — and for `i = 0` it is the input
minus its last character. -/
theorem bucket_result_domain_truncated
    (baseURL : String → String) (parse : String → Option (List String))
    (getRedir : String → Option String) (fetch : String → Option HttpResp)
    (domain : String) (queue : List String) (results : List S3Bucket)
    (b : S3Bucket) (i : Nat)
    (hns : pyEndsWith domain "s3.amazonaws.com" = false)
    (hi : pyFind domain "s3" = some i)
    (hemit : (get_s3 baseURL parse getRedir fetch domain queue results).2 =
      results ++ [b]) :
    b.domain = pySliceTo domain ((i : Int) - 1) ∧
    (1 ≤ i → b.domain = (domain.toList.take (i - 1)).asString ∧
      b.domain ≠ domain) ∧
    (i = 0 → b.domain =
      (domain.toList.take (domain.toList.length - 1)).asString) := by
  have hlen : i + 2 ≤ domain.toList.length := by
    have := findSub_bound "s3".toList domain.toList i hi
    simpa using this
  have hbdom : b.domain = pySliceTo domain ((i : Int) - 1) := by
    unfold get_s3 at hemit
    simp only [s3Target, hns, Bool.false_eq_true, if_false, hi] at hemit
    cases hfetch : fetch ("http://" ++ pySliceFrom domain i ++ "/" ++
        pySliceTo domain ((i : Int) - 1)) with
    | none =>
      rw [hfetch] at hemit
      exact absurd (congrArg List.length hemit) (by simp)
    | some resp =>
      rw [hfetch] at hemit
      by_cases hs : startsWith2 resp.status = true
      · simp only [hs, if_true] at hemit
        cases hparse : parse resp.body with
        | none =>
          rw [hparse] at hemit
          exact absurd (congrArg List.length hemit) (by simp)
        | some objs =>
          rw [hparse] at hemit
          by_cases he : objs.isEmpty
          · simp only [he, if_true] at hemit
            exact absurd (congrArg List.length hemit) (by simp)
          · simp only [he, if_false] at hemit
            have hb := List.append_cancel_left hemit
            simp only [List.cons.injEq] at hb
            rw [← hb.1]
      · simp only [hs, if_false] at hemit
        by_cases h301 : resp.status = 301
        · simp only [h301, if_true] at hemit
          cases hr : getRedir resp.body with
          | none =>
            rw [hr] at hemit
            exact absurd (congrArg List.length hemit) (by simp)
          | some r =>
            rw [hr] at hemit
            exact absurd (congrArg List.length hemit) (by simp)
        · simp only [h301, if_false] at hemit
          exact absurd (congrArg List.length hemit) (by simp)
  refine ⟨hbdom, fun h1 => ⟨?_, ?_⟩, fun h0 => ?_⟩
  · rw [hbdom]
    unfold pySliceTo
    have hpos : ¬((i : Int) - 1 < 0) := by omega
    rw [if_neg hpos]
    congr 1
    congr 1
    omega
  · rw [hbdom]
    intro hcontra
    unfold pySliceTo at hcontra
    have hpos : ¬((i : Int) - 1 < 0) := by omega
    rw [if_neg hpos] at hcontra
    have htl := congrArg String.toList hcontra
    have : ((i : Int) - 1).toNat = i - 1 := by omega
    rw [this] at htl
    have hlist : domain.toList.take (i - 1) = domain.toList := htl
    have := congrArg List.length hlist
    simp only [List.length_take] at this
    omega
  · rw [hbdom]
    unfold pySliceTo
    have hneg : (i : Int) - 1 < 0 := by omega
    rw [if_pos hneg]
    congr 2
    omega

/-- Witness for the amended C10 at `"x.s3.y"` (marker at index 2): the
emitted domain is `"x"`, the prefix ending one character before the
marker, and differs from the input. -/
theorem bucket_result_domain_truncated_witness :
    (⟨"x", "http://s3.y/x", ["o"]⟩ : S3Bucket).domain =
      ("x.s3.y".toList.take (2 - 1)).asString ∧
    (⟨"x", "http://s3.y/x", ["o"]⟩ : S3Bucket).domain ≠ "x.s3.y" :=
  (bucket_result_domain_truncated (fun d => d) (fun _ => some ["o"])
    (fun _ => none) (fun _ => some ⟨200, ""⟩) "x.s3.y" [] []
    ⟨"x", "http://s3.y/x", ["o"]⟩ 2 (by decide) (by decide) (by decide)).2.1
    (by decide)

/-! ## Permit accounting (claim C3) -/

theorem countNotDone_append (a b : List Task) :
    countNotDone (a ++ b) = countNotDone a + countNotDone b := by
  induction a with
  | nil => simp [countNotDone]
  | cons t ts ih =>
    show (match t.phase with | .done => 0 | _ => 1) + countNotDone (ts ++ b) = _
    rw [ih]
    show _ = (match t.phase with | .done => 0 | _ => 1) + countNotDone ts +
      countNotDone b
    omega

theorem countNotDone_setPhase_running (ts : List Task) (i : Nat) (t : Task)
    (h : getTask ts i = some t) (hp : t.phase = .created) :
    countNotDone (setPhase ts i .running) = countNotDone ts := by
  induction ts generalizing i with
  | nil => cases h
  | cons u us ih =>
    cases i with
    | zero =>
      simp only [getTask, Option.some.injEq] at h
      subst h
      simp [setPhase, countNotDone, hp]
    | succ n =>
      simp only [getTask] at h
      simp [setPhase, countNotDone, ih n h]

theorem countNotDone_setPhase_done (ts : List Task) (i : Nat) (t : Task)
    (h : getTask ts i = some t) (hp : t.phase = .running) :
    countNotDone ts = countNotDone (setPhase ts i .done) + 1 := by
  induction ts generalizing i with
  | nil => cases h
  | cons u us ih =>
    cases i with
    | zero =>
      simp only [getTask, Option.some.injEq] at h
      subst h
      simp only [setPhase, countNotDone, hp]
      omega
    | succ n =>
      simp only [getTask] at h
      simp only [setPhase, countNotDone, ih n h]
      omega

theorem countRunning_le_countNotDone (ts : List Task) :
    countRunning ts ≤ countNotDone ts := by
  induction ts with
  | nil => simp [countRunning, countNotDone]
  | cons t ts ih =>
    cases hp : t.phase <;>
      simp only [countRunning, countNotDone, hp] <;> omega

theorem permitInv_step (C : Nat) (env : String → List String) (s : Sys)
    (c : Choice) (h : permitInv C s) : permitInv C (step env s c) := by
  cases c with
  | task i =>
    show permitInv C (taskStep env s i)
    unfold taskStep
    cases hg : getTask s.tasks i with
    | none => exact h
    | some t =>
      obtain ⟨tdom, tph⟩ := t
      cases tph with
      | created =>
        unfold permitInv semWaitBit at h
        unfold permitInv semWaitBit
        dsimp only
        rw [countNotDone_setPhase_running s.tasks i ⟨tdom, .created⟩ hg rfl]
        exact h
      | running =>
        have hcd := countNotDone_setPhase_done s.tasks i ⟨tdom, .running⟩ hg rfl
        unfold permitInv semWaitBit at h
        unfold permitInv semWaitBit
        dsimp only
        omega
      | done => exact h
  | sched =>
    show permitInv C (schedStep s)
    unfold schedStep
    cases hs : s.sched with
    | loopTop =>
      unfold permitInv semWaitBit at h
      rw [hs] at h
      dsimp only at h
      cases hq : s.queue with
      | nil =>
        unfold permitInv semWaitBit
        dsimp only
        omega
      | cons d rest =>
        dsimp only
        split
        · unfold permitInv semWaitBit
          dsimp only
          rw [countNotDone_append]
          simp only [countNotDone]
          omega
        · rename_i hz
          unfold permitInv semWaitBit
          dsimp only
          rw [countNotDone_append]
          simp only [countNotDone]
          omega
    | semWait =>
      unfold permitInv semWaitBit at h
      rw [hs] at h
      dsimp only at h
      dsimp only
      split
      · unfold permitInv semWaitBit
        rw [hs]
        dsimp only
        omega
      · rename_i hz
        unfold permitInv semWaitBit
        dsimp only
        omega
    | gathering =>
      unfold permitInv semWaitBit at h
      rw [hs] at h
      dsimp only at h
      dsimp only
      split
      · unfold permitInv semWaitBit
        dsimp only
        omega
      · unfold permitInv semWaitBit
        rw [hs]
        dsimp only
        omega
    | returned =>
      unfold permitInv semWaitBit at h
      unfold permitInv semWaitBit
      rw [hs] at h
      rw [hs]
      dsimp only at h
      dsimp only
      omega

theorem permitInv_runList (C : Nat) (env : String → List String) (s : Sys)
    (cs : List Choice) (h : permitInv C s) :
    permitInv C (runList env s cs) := by
  induction cs generalizing s with
  | nil => exact h
  | cons c cs ih => exact ih _ (permitInv_step C env s c h)

/-- Counterexample to claim C3 as stated: with concurrency `C = 1` and
two seeds, the scheduler's second loop iteration creates the second task
*before* blocking in `sem.acquire()` (line 187 precedes line 197), so
when it suspends both created tasks start running: two probe bodies
execute concurrently while only one permit exists. -/
theorem concurrency_bound_violated_at_one :
    countRunning ((runList (fun _ => []) (initSys 1 ["a", "b"])
      [.sched, .sched, .task 0, .task 1]).tasks) = 2 ∧ ¬(2 ≤ 1) :=
  ⟨by decide, by decide⟩

/-- Claim C3 as amended: in every run of `analyze_domains`, for every
configured concurrency limit `C`, every discovery behaviour and every
event-loop schedule, the number of concurrently executing probe bodies
never exceeds `C + 1` — the permits bound the rest, and the single task
created between a pop and the blocking `sem.acquire()` accounts for the
`+ 1`. -/
theorem concurrency_bound_C_plus_one (C : Nat) (env : String → List String)
    (seeds : List String) (cs : List Choice) :
    countRunning ((runList env (initSys C seeds) cs).tasks) ≤ C + 1 := by
  have h0 : permitInv C (initSys C seeds) := by
    unfold permitInv initSys semWaitBit countNotDone
    simp
  have h := permitInv_runList C env _ cs h0
  have hr := countRunning_le_countNotDone
    (runList env (initSys C seeds) cs).tasks
  unfold permitInv at h
  have hb : semWaitBit (runList env (initSys C seeds) cs) ≤ 1 := by
    unfold semWaitBit
    split <;> omega
  omega

/-- Claim C1 evidence (code bug): concurrency 2, single seed `"a"`,
whose probe discovers `"b"`.  This is the schedule asyncio itself
produces: the scheduler's loop iteration for `"a"` does not suspend (a
permit is free), its next emptiness check sees the queue empty before
the probe task ever ran, so it proceeds to `gather`; the probe then
pushes `"b"` and finishes; `gather` returns.  `analyze_domains` returns
with `"b"` still on the queue, never dequeued and never probed — the run
ends without reaching the DRAINED condition the claim requires. -/
theorem analyze_domains_premature_return_run :
    runList (fun _ => ["b"]) (initSys 2 ["a"])
      [.sched, .sched, .task 0, .task 0, .sched] =
      ⟨["b"], 2, .returned, [⟨"a", .done⟩], 1, 1⟩ ∧
    (["b"] : List String) ≠ [] :=
  ⟨by decide, by decide⟩

/-! ## Seed conservation (claim C8) -/

theorem map_domain_setPhase (ts : List Task) (i : Nat) (p : Phase) :
    (setPhase ts i p).map Task.domain = ts.map Task.domain := by
  induction ts generalizing i with
  | nil => rfl
  | cons t us ih =>
    cases i with
    | zero => simp [setPhase]
    | succ n => simp [setPhase, ih n]

theorem countStarted_append (a b : List Task) :
    countStarted (a ++ b) = countStarted a + countStarted b := by
  induction a with
  | nil => simp [countStarted]
  | cons t ts ih =>
    show (match t.phase with | .created => 0 | _ => 1) + countStarted (ts ++ b) = _
    rw [ih]
    show _ = (match t.phase with | .created => 0 | _ => 1) + countStarted ts +
      countStarted b
    omega

theorem countStarted_setPhase_running (ts : List Task) (i : Nat) (t : Task)
    (h : getTask ts i = some t) (hp : t.phase = .created) :
    countStarted (setPhase ts i .running) = countStarted ts + 1 := by
  induction ts generalizing i with
  | nil => cases h
  | cons u us ih =>
    cases i with
    | zero =>
      simp only [getTask, Option.some.injEq] at h
      subst h
      simp only [setPhase, countStarted, hp]
      omega
    | succ n =>
      simp only [getTask] at h
      simp only [setPhase, countStarted, ih n h]
      omega

theorem countStarted_setPhase_done (ts : List Task) (i : Nat) (t : Task)
    (h : getTask ts i = some t) (hp : t.phase = .running) :
    countStarted (setPhase ts i .done) = countStarted ts := by
  induction ts generalizing i with
  | nil => cases h
  | cons u us ih =>
    cases i with
    | zero =>
      simp only [getTask, Option.some.injEq] at h
      subst h
      simp [setPhase, countStarted, hp]
    | succ n =>
      simp only [getTask] at h
      simp only [setPhase, countStarted, ih n h]

theorem phase_done_of_flag (p : Phase)
    (h : (match p with | Phase.done => true | _ => false) = true) :
    p = Phase.done := by
  cases p <;> simp_all

theorem allDone_getTask (ts : List Task) (i : Nat) (t : Task)
    (hd : allDone ts = true) (h : getTask ts i = some t) :
    t.phase = .done := by
  induction ts generalizing i with
  | nil => cases h
  | cons u us ih =>
    have hd' : (match u.phase with | Phase.done => true | _ => false) = true ∧
        allDone us = true := by
      simpa [allDone, Bool.and_eq_true] using hd
    cases i with
    | zero =>
      simp only [getTask, Option.some.injEq] at h
      rw [← h]
      exact phase_done_of_flag u.phase hd'.1
    | succ n =>
      simp only [getTask] at h
      exact ih n hd'.2 h

theorem countStarted_eq_length (ts : List Task) (hd : allDone ts = true) :
    countStarted ts = ts.length := by
  induction ts with
  | nil => rfl
  | cons u us ih =>
    have hd' : (match u.phase with | Phase.done => true | _ => false) = true ∧
        allDone us = true := by
      simpa [allDone, Bool.and_eq_true] using hd
    have hu : u.phase = .done := phase_done_of_flag u.phase hd'.1
    simp only [countStarted, hu, List.length_cons, ih hd'.2]
    omega

theorem analyzePushes_disabled_nil (baseURL : String → String)
    (parse : String → Option (List String)) (getRedir : String → Option String)
    (fetch : String → Option HttpResp) (linksP dnsP : String → List String)
    (hf : ∀ u r, fetch u = some r → r.status ≠ 301) (d : String) :
    analyzePushes ⟨true, true⟩ baseURL parse getRedir fetch linksP dnsP d = [] := by
  unfold analyzePushes get_s3
  simp only [if_true, List.append_nil]
  cases hfd : fetch (s3Target baseURL d).2 with
  | none => rfl
  | some r =>
    have h301 : r.status ≠ 301 := hf _ _ hfd
    dsimp only
    by_cases hs : startsWith2 r.status = true
    · simp only [hs, if_true]
      cases parse r.body with
      | none => rfl
      | some objs =>
        dsimp only
        split <;> rfl
    · simp only [hs, if_false, h301]
      simp

theorem seedInv_step (seeds : List String) (env : String → List String)
    (henv : ∀ d, env d = []) (s : Sys) (c : Choice)
    (h : seedInv seeds s) : seedInv seeds (step env s c) := by
  obtain ⟨h1, h2, h3, h4⟩ := h
  cases c with
  | task i =>
    show seedInv seeds (taskStep env s i)
    unfold taskStep
    cases hg : getTask s.tasks i with
    | none => exact ⟨h1, h2, h3, h4⟩
    | some t =>
      obtain ⟨tdom, tph⟩ := t
      cases tph with
      | created =>
        refine ⟨?_, h2, ?_, ?_⟩
        · show (setPhase s.tasks i .running).map Task.domain ++ s.queue = seeds
          rw [map_domain_setPhase]
          exact h1
        · intro hret
          have := allDone_getTask s.tasks i ⟨tdom, .created⟩ (h3 hret) hg
          simp at this
        · show s.started + 1 = countStarted (setPhase s.tasks i .running)
          rw [countStarted_setPhase_running s.tasks i ⟨tdom, .created⟩ hg rfl, h4]
      | running =>
        refine ⟨?_, ?_, ?_, ?_⟩
        · show (setPhase s.tasks i .done).map Task.domain ++
            (s.queue ++ env tdom) = seeds
          rw [map_domain_setPhase, henv tdom, List.append_nil]
          exact h1
        · intro hret
          show s.queue ++ env tdom = []
          rw [henv tdom, List.append_nil]
          exact h2 hret
        · intro hret
          have := allDone_getTask s.tasks i ⟨tdom, .running⟩ (h3 hret) hg
          simp at this
        · show s.started = countStarted (setPhase s.tasks i .done)
          rw [countStarted_setPhase_done s.tasks i ⟨tdom, .running⟩ hg rfl, h4]
      | done => exact ⟨h1, h2, h3, h4⟩
  | sched =>
    show seedInv seeds (schedStep s)
    unfold schedStep
    cases hs : s.sched with
    | loopTop =>
      cases hq : s.queue with
      | nil =>
        dsimp only
        refine ⟨?_, fun _ => rfl, ?_, h4⟩
        · rw [hq] at h1
          simpa using h1
        · intro hret
          simp at hret
      | cons d rest =>
        dsimp only
        rw [hq] at h1
        split
        · refine ⟨?_, ?_, ?_, ?_⟩
          · show (s.tasks ++ [(⟨d, .created⟩ : Task)]).map Task.domain ++ rest =
              seeds
            simpa [List.append_assoc] using h1
          · intro h'
            simp at h'
          · intro h'
            simp at h'
          · show s.started = countStarted (s.tasks ++ [(⟨d, .created⟩ : Task)])
            rw [countStarted_append]
            simpa [countStarted] using h4
        · refine ⟨?_, ?_, ?_, ?_⟩
          · show (s.tasks ++ [(⟨d, .created⟩ : Task)]).map Task.domain ++ rest =
              seeds
            simpa [List.append_assoc] using h1
          · intro h'
            simp at h'
          · intro h'
            simp at h'
          · show s.started = countStarted (s.tasks ++ [(⟨d, .created⟩ : Task)])
            rw [countStarted_append]
            simpa [countStarted] using h4
    | semWait =>
      dsimp only
      split
      · exact ⟨h1, h2, h3, h4⟩
      · refine ⟨h1, ?_, ?_, h4⟩
        · intro h'
          simp at h'
        · intro h'
          simp at h'
    | gathering =>
      dsimp only
      split
      · rename_i hd
        refine ⟨h1, ?_, fun _ => hd, h4⟩
        · intro _
          rw [hs] at h2
          exact h2 (Or.inl rfl)
      · exact ⟨h1, h2, h3, h4⟩
    | returned => exact ⟨h1, h2, h3, h4⟩

theorem seedInv_runList (seeds : List String) (env : String → List String)
    (henv : ∀ d, env d = []) (s : Sys) (cs : List Choice)
    (h : seedInv seeds s) : seedInv seeds (runList env s cs) := by
  induction cs generalizing s with
  | nil => exact h
  | cons c cs ih => exact ih _ (seedInv_step seeds env henv s c h)

/-- Counterexample to claim C8 as stated: with link extraction and alias
resolution both disabled, a single seed `"a"` whose bucket probe answers
301 with redirect target `"r.example"` still grows the Frontier: after
the probe runs, `"r.example"` — not among the seeds — sits on the queue
(the 301 push of `get_s3`, line 133, is not guarded by any flag). -/
theorem disabled_probes_redirect_growth :
    (runList
      (analyzePushes ⟨true, true⟩ (fun d => d) (fun _ => some [])
        (fun _ => some "r.example") (fun _ => some ⟨301, ""⟩)
        (fun _ => []) (fun _ => []))
      (initSys 2 ["a"]) [.sched, .sched, .task 0, .task 0]).queue =
      ["r.example"] ∧
    ("r.example" : String) ∉ (["a"] : List String) :=
  ⟨by decide, by decide⟩

/-- Claim C8 as amended: if link extraction and alias resolution are
disabled and additionally no bucket probe response is a 301 redirect,
then in every run and under every schedule the Frontier only ever holds
seed domains, and when `analyze_domains` returns it has launched exactly
one probe per seed (in seed order) and every probe body has run. -/
theorem disabled_no_redirect_exactly_N (C : Nat) (seeds : List String)
    (baseURL : String → String) (parse : String → Option (List String))
    (getRedir : String → Option String) (fetch : String → Option HttpResp)
    (linksP dnsP : String → List String) (cs : List Choice)
    (hf : ∀ u r, fetch u = some r → r.status ≠ 301) :
    (∀ d, d ∈ (runList
        (analyzePushes ⟨true, true⟩ baseURL parse getRedir fetch linksP dnsP)
        (initSys C seeds) cs).queue → d ∈ seeds) ∧
    ((runList
        (analyzePushes ⟨true, true⟩ baseURL parse getRedir fetch linksP dnsP)
        (initSys C seeds) cs).sched = .returned →
      (runList
        (analyzePushes ⟨true, true⟩ baseURL parse getRedir fetch linksP dnsP)
        (initSys C seeds) cs).tasks.map Task.domain = seeds ∧
      (runList
        (analyzePushes ⟨true, true⟩ baseURL parse getRedir fetch linksP dnsP)
        (initSys C seeds) cs).started = seeds.length) := by
  have henv : ∀ d, analyzePushes ⟨true, true⟩ baseURL parse getRedir fetch
      linksP dnsP d = [] :=
    analyzePushes_disabled_nil baseURL parse getRedir fetch linksP dnsP hf
  have h0 : seedInv seeds (initSys C seeds) := by
    refine ⟨by simp [initSys], ?_, ?_, rfl⟩
    · intro h'
      simp [initSys] at h'
    · intro h'
      simp [initSys] at h'
  obtain ⟨h1, h2, h3, h4⟩ :=
    seedInv_runList seeds _ henv (initSys C seeds) cs h0
  refine ⟨?_, ?_⟩
  · intro d hd
    rw [← h1]
    exact List.mem_append_right _ hd
  · intro hret
    have hq := h2 (Or.inr hret)
    rw [hq, List.append_nil] at h1
    refine ⟨h1, ?_⟩
    rw [h4, countStarted_eq_length _ (h3 hret)]
    have hlen := congrArg List.length h1
    simpa using hlen

/-- Witness for the amended C8: concurrency 2, one seed, a 200 response
with an empty listing; the run returns having probed exactly the seed. -/
theorem disabled_no_redirect_exactly_N_witness :
    (runList
      (analyzePushes ⟨true, true⟩ (fun d => d) (fun _ => some [])
        (fun _ => none) (fun _ => some ⟨200, ""⟩) (fun _ => []) (fun _ => []))
      (initSys 2 ["a"]) [.sched, .sched, .task 0, .task 0, .sched]).tasks.map
        Task.domain = ["a"] ∧
    (runList
      (analyzePushes ⟨true, true⟩ (fun d => d) (fun _ => some [])
        (fun _ => none) (fun _ => some ⟨200, ""⟩) (fun _ => []) (fun _ => []))
      (initSys 2 ["a"]) [.sched, .sched, .task 0, .task 0, .sched]).started =
      (["a"] : List String).length :=
  (disabled_no_redirect_exactly_N 2 ["a"] (fun d => d) (fun _ => some [])
    (fun _ => none) (fun _ => some ⟨200, ""⟩) (fun _ => []) (fun _ => [])
    [.sched, .sched, .task 0, .task 0, .sched]
    (fun u r h => by
      injection h with h'
      rw [← h']
      decide)).2 (by decide)

/-! ## The non-terminating cyclic run (claim C2) -/

theorem getTask_replicate_append (t0 : Task) (l : List Task) (k : Nat) :
    getTask (List.replicate k t0 ++ l) k = getTask l 0 := by
  induction k with
  | zero => simp [List.replicate]
  | succ n ih =>
    simp only [List.replicate_succ, List.cons_append, getTask]
    exact ih

theorem setPhase_replicate_append (t0 : Task) (l : List Task) (k : Nat)
    (p : Phase) :
    setPhase (List.replicate k t0 ++ l) k p =
      List.replicate k t0 ++ setPhase l 0 p := by
  induction k with
  | zero => simp [List.replicate]
  | succ n ih =>
    simp only [List.replicate_succ, List.cons_append, setPhase]
    exact congrArg (fun l1 => t0 :: l1) ih

theorem bStateStepA (k : Nat) :
    step envLoop (bState k) (.task k) =
      ⟨[], 0, .semWait, List.replicate k dTask ++ [rTask, cTask], k + 1, k⟩ := by
  simp only [step]
  unfold taskStep bState
  dsimp only
  rw [getTask_replicate_append]
  simp only [getTask, cTask]
  rw [setPhase_replicate_append]
  simp [setPhase, cTask, rTask]

theorem bStateStepB (k : Nat) :
    step envLoop
      ⟨[], 0, .semWait, List.replicate k dTask ++ [rTask, cTask], k + 1, k⟩
      (.task k) =
      ⟨["a"], 1, .semWait, List.replicate k dTask ++ [dTask, cTask],
        k + 1, k + 1⟩ := by
  simp only [step]
  unfold taskStep
  dsimp only
  rw [getTask_replicate_append]
  simp only [getTask, rTask]
  rw [setPhase_replicate_append]
  simp [setPhase, rTask, dTask, envLoop]

theorem bStateStepC (k : Nat) :
    step envLoop
      ⟨["a"], 1, .semWait, List.replicate k dTask ++ [dTask, cTask],
        k + 1, k + 1⟩ .sched =
      ⟨["a"], 0, .loopTop, List.replicate k dTask ++ [dTask, cTask],
        k + 1, k + 1⟩ := by
  simp only [step]
  unfold schedStep
  simp

theorem bStateStepD (k : Nat) :
    step envLoop
      ⟨["a"], 0, .loopTop, List.replicate k dTask ++ [dTask, cTask],
        k + 1, k + 1⟩ .sched = bState (k + 1) := by
  simp only [step]
  unfold schedStep bState
  dsimp only
  simp [cTask, dTask, List.replicate_succ', List.append_assoc]

/-- Claim C2 evidence (code bug): on the cyclic discovery graph where
every probe of `"a"` re-discovers `"a"` (`envLoop`), with concurrency 1
and seeds `["a", "a"]`, `analyze_domains` never reaches DRAINED.  The
infinite event-loop schedule `[.sched, .sched] ++ periodC 0 ++
periodC 1 ++ ...` is realizable (each `periodC k` runs while the
scheduler is suspended in `sem.acquire()`): the two initial scheduler
slices reach `bState 0`, each period maps `bState k` to `bState (k+1)`,
no state visited in any period has returned, and `bState k` has launched
`k` probe bodies — so the run visits only non-returned states while the
number of probe invocations grows without bound.  No seen-set exists in
the source to cut the cycle. -/
theorem analyze_domains_cycle_nontermination :
    (runList envLoop (initSys 1 ["a", "a"]) [.sched, .sched] = bState 0 ∧
     (statesAlong envLoop (initSys 1 ["a", "a"]) [.sched, .sched]).all
        (fun t => !isReturned t) = true) ∧
    ∀ k : Nat,
      runList envLoop (bState k) (periodC k) = bState (k + 1) ∧
      (statesAlong envLoop (bState k) (periodC k)).all
        (fun t => !isReturned t) = true ∧
      (bState k).started = k := by
  refine ⟨⟨by decide, by decide⟩, fun k => ⟨?_, ?_, rfl⟩⟩
  · show runList envLoop (bState k) [.task k, .task k, .sched, .sched] = _
    simp only [runList]
    rw [bStateStepA, bStateStepB, bStateStepC, bStateStepD]
  · show (statesAlong envLoop (bState k)
      [.task k, .task k, .sched, .sched]).all (fun t => !isReturned t) = true
    simp only [statesAlong]
    rw [bStateStepA, bStateStepB, bStateStepC, bStateStepD]
    simp [isReturned, bState]

end Festin
